import Mathlib

/-!
Verification of the inverse Bloom filter (`filter.go`).

The Go package implements a concurrent "inverse" Bloom filter: a fixed-size
table of slots, each holding at most one previously observed key.  `Observe`
hashes a key to a slot index, atomically swaps the key into the slot, and
reports whether the previous occupant was byte-for-byte equal to the key.

Shallow embedding conventions:
* a byte slice (`[]byte`) is a `List Nat` of its bytes;
* the filter's Go struct fields `array`, `sizeMask` and the internal FNV-1a
  hasher state become record fields; the hasher's `uint32` accumulator is a
  `Nat` reduced modulo `2 ^ 32` at each update;
* `Observe` is state passing: it returns the boolean together with the updated
  filter; `getAndSet`'s atomic exchange becomes an ordinary read-and-set, the
  concurrency being outside the sequential embedding;
* `NewInverseBloomFilter` returns `Except FilterError InverseBloomFilter` for
  Go's `(*InverseBloomFilter, error)`.
-/

/-- A key: a byte slice (`[]byte`), with each byte a `Nat` below 256.  Go's
`bytes.Equal` treats a nil slice and an empty slice alike, so both are the
empty list here. -/
abbrev Key := List Nat

/-- The FNV-1a 32-bit prime (`hash/fnv`, `prime32 = 16777619`). -/
def fnvPrime : Nat := 16777619

/-- The FNV-1a 32-bit offset basis (`hash/fnv`, `offset32 = 2166136261`), the
accumulator value of a fresh or freshly `Reset` hasher. -/
def fnvOffsetBasis : Nat := 2166136261

/-- One step of FNV-1a on a `uint32` accumulator (`hash/fnv`, `Write`):
xor in the byte, multiply by the prime, modulo `2 ^ 32`. -/
def fnvUpdate (h b : Nat) : Nat := ((h ^^^ b) * fnvPrime) % 2 ^ 32

/-- `i.hash.Write(key)` (filter.go line 72): feed every byte of the key into
the FNV-1a accumulator. -/
def hashWrite (h : Nat) (key : Key) : Nat := key.foldl fnvUpdate h

/-- `u.Sum(nil)` on the 32-bit FNV hasher: the accumulator appended as four
big-endian bytes. -/
def sumBytes (h : Nat) : List Nat :=
  [h / 2 ^ 24 % 256, h / 2 ^ 16 % 256, h / 2 ^ 8 % 256, h % 256]

/-- `uintHash.Sum32` (filter.go lines 88-96): `x := sum[0]`, then for the
bytes `sum[1]` and `sum[2]` only, `x = x<<3; x += val`, on `uint32`
(so modulo `2 ^ 32`); the fourth digest byte is discarded. -/
def uintHashSum32 (h : Nat) : Nat :=
  let sum := sumBytes h
  let x0 := sum.getD 0 0
  let x1 := (x0 * 8 % 2 ^ 32 + sum.getD 1 0) % 2 ^ 32
  let x2 := (x1 * 8 % 2 ^ 32 + sum.getD 2 0) % 2 ^ 32
  x2

/-- The construction errors (`ErrSizeTooLarge`, `ErrSizeTooSmall`,
filter.go lines 26-33). -/
inductive FilterError where
  | ErrSizeTooLarge : FilterError
  | ErrSizeTooSmall : FilterError
deriving DecidableEq, Repr

/-- `MaxSize = 1 << 30` (filter.go line 36), as a Go `int`. -/
def MaxSize : Int := 2 ^ 30

/-- The `InverseBloomFilter` struct (filter.go lines 42-46).  `array` is the
slot table (`[]*[]byte`: a nil pointer is `none`); `sizeMask` is the
`uint32` mask; `hstate` is the accumulator of the private `uintHash`
hasher. -/
structure InverseBloomFilter where
  array : List (Option Key)
  sizeMask : Nat
  hstate : Nat
deriving DecidableEq, Repr

/-- `int(math.Pow(2, math.Ceil(math.Log2(float64(size)))))` (filter.go
line 60), computed by scanning exponents downward: if `2 ^ fuel < n` the
answer is `2 ^ (fuel + 1)`, otherwise recurse.  For `1 ≤ n ≤ 2 ^ 30` the Go
float64 computation is exact — `math.Log2` returns exactly `k` on `2 ^ k`
(its implementation special-cases a fraction of 0.5) and otherwise a value
strictly between the neighbouring integers, and `math.Pow(2, k)` is exact —
so it equals the least power of two `≥ n`, which this function computes. -/
def roundUpPow2Aux (n : Nat) : Nat → Nat
  | 0 => 1
  | fuel + 1 => if 2 ^ fuel < n then 2 ^ (fuel + 1) else roundUpPow2Aux n fuel

/-- Rounding to the next power of two for sizes up to `MaxSize = 2 ^ 30`. -/
def roundUpPow2 (n : Nat) : Nat := roundUpPow2Aux n 30

/-- `NewInverseBloomFilter` (filter.go lines 51-64): reject sizes above
`MaxSize`, then sizes `≤ 0`; otherwise round the size up to a power of two,
allocate that many empty slots, set the mask to `size - 1` and hold a fresh
FNV-1a hasher. -/
def NewInverseBloomFilter (size : Int) : Except FilterError InverseBloomFilter :=
  if MaxSize < size then .error .ErrSizeTooLarge
  else if size ≤ 0 then .error .ErrSizeTooSmall
  else
    let n := roundUpPow2 size.toNat
    .ok { array := List.replicate n none, sizeMask := n - 1, hstate := fnvOffsetBasis }

/-- The slot index `Observe` computes (filter.go lines 72-73):
`i.hash.Write(key); uindex := i.hash.Sum32() & i.sizeMask`. -/
def observeIndex (f : InverseBloomFilter) (key : Key) : Nat :=
  uintHashSum32 (hashWrite f.hstate key) &&& f.sizeMask

/-- `getAndSet` (filter.go lines 100-115): return the slot's previous
content after storing the new key there.  A nil slot pointer leaves `oldKey`
as the nil slice, i.e. the empty byte sequence. -/
def getAndSet (arr : List (Option Key)) (index : Nat) (key : Key) :
    Key × List (Option Key) :=
  ((arr.getD index none).getD [], arr.set index (some key))

/-- `Observe` (filter.go lines 71-77): hash the key to an index, reset the
hasher, exchange the key into the slot, and return `bytes.Equal(oldId, key)`
together with the updated filter. -/
def Observe (f : InverseBloomFilter) (key : Key) : Bool × InverseBloomFilter :=
  let uindex := observeIndex f key
  let gs := getAndSet f.array uindex key
  (gs.1 == key, { array := gs.2, sizeMask := f.sizeMask, hstate := fnvOffsetBasis })

/-- `Size` (filter.go lines 80-82): the slot table length. -/
def Size (f : InverseBloomFilter) : Nat := f.array.length

/-- A filter as produced by `NewInverseBloomFilter`: the mask is the table
length minus one (in particular the table is nonempty). -/
def WellFormed (f : InverseBloomFilter) : Prop :=
  f.sizeMask + 1 = f.array.length

/-- The spec's description of the index computation, written from its words
(§4.2): take the 32-bit FNV-1a digest of the key as bytes, set
`x = digest_byte[0]`, then for `digest_byte[1]` and `digest_byte[2]` only
set `x = (x << 3) + digest_byte[i]`, and finally `index = x & indexMask`. -/
def specIndexOfKey (key : Key) (indexMask : Nat) : Nat :=
  let digest := sumBytes (hashWrite fnvOffsetBasis key)
  let x := digest.getD 0 0
  let x := x * 8 + digest.getD 1 0
  let x := x * 8 + digest.getD 2 0
  x &&& indexMask

/-- A concrete filter for witnesses: exactly `NewInverseBloomFilter 10`'s
result (16 slots, mask 15, fresh hasher). -/
def sampleFilter : InverseBloomFilter :=
  { array := List.replicate 16 none, sizeMask := 15, hstate := fnvOffsetBasis }

example : NewInverseBloomFilter 10 = .ok sampleFilter := rfl
example : (NewInverseBloomFilter 0).isOk = false := rfl


/-! ### Helper lemmas -/

/-- The fold in `uintHash.Sum32` never overflows `uint32`: the wrapped fold
equals the plain fold of the first three digest bytes. -/
theorem uintHashSum32_eq_specFold (h : Nat) :
    uintHashSum32 h =
      ((sumBytes h).getD 0 0 * 8 + (sumBytes h).getD 1 0) * 8 + (sumBytes h).getD 2 0 := by
  unfold uintHashSum32 sumBytes
  simp only [List.getD_cons_zero, List.getD_cons_succ]
  omega

/-- The index `Observe` uses on a filter whose hasher is in its reset state
equals the spec's pure index of the key. -/
theorem observeIndex_eq_spec (f : InverseBloomFilter) (key : Key)
    (hh : f.hstate = fnvOffsetBasis) :
    observeIndex f key = specIndexOfKey key f.sizeMask := by
  unfold observeIndex specIndexOfKey
  rw [hh, uintHashSum32_eq_specFold]

/-- On a well-formed filter, the computed index is inside the table. -/
theorem observeIndex_lt_length (f : InverseBloomFilter) (key : Key)
    (hwf : WellFormed f) : observeIndex f key < f.array.length := by
  have hle : observeIndex f key ≤ f.sizeMask := Nat.and_le_right
  unfold WellFormed at hwf
  omega

/-- `roundUpPow2Aux n fuel` for `1 ≤ n ≤ 2 ^ fuel` is a power of two,
at least `n`, and below `2 * n`. -/
theorem roundUpPow2Aux_spec (n : Nat) (fuel : Nat) (h1 : 1 ≤ n) (h2 : n ≤ 2 ^ fuel) :
    (∃ k, roundUpPow2Aux n fuel = 2 ^ k) ∧
      n ≤ roundUpPow2Aux n fuel ∧ roundUpPow2Aux n fuel < 2 * n := by
  induction fuel with
  | zero =>
    simp only [pow_zero] at h2
    have hn : n = 1 := le_antisymm h2 h1
    subst hn
    exact ⟨⟨0, rfl⟩, by simp [roundUpPow2Aux], by simp [roundUpPow2Aux]⟩
  | succ fuel ih =>
    by_cases hc : 2 ^ fuel < n
    · have hres : roundUpPow2Aux n (fuel + 1) = 2 ^ (fuel + 1) := by
        simp [roundUpPow2Aux, hc]
      refine ⟨⟨fuel + 1, hres⟩, ?_, ?_⟩
      · rw [hres]; exact h2
      · rw [hres, pow_succ]; omega
    · have hres : roundUpPow2Aux n (fuel + 1) = roundUpPow2Aux n fuel := by
        simp [roundUpPow2Aux, hc]
      rw [hres]
      exact ih (le_of_not_lt hc)

/-- A power of two in the interval `[n, 2 * n)` with `n = 2 ^ k` is `n`
itself. -/
theorem pow_two_between (n m k : Nat) (hn : n = 2 ^ k) (hm : ∃ j, m = 2 ^ j)
    (hge : n ≤ m) (hlt : m < 2 * n) : m = n := by
  obtain ⟨j, hj⟩ := hm
  subst hn hj
  have h2 : (2 : Nat) ^ j < 2 ^ (k + 1) := by
    rw [pow_succ]; omega
  have hjk : j < k + 1 := (Nat.pow_lt_pow_iff_right (by norm_num)).mp h2
  have hkj : k ≤ j := (Nat.pow_le_pow_iff_right (by norm_num)).mp hge
  have : j = k := by omega
  rw [this]

/-! ### Claim theorems -/

/-- C1 (code bug, evaluated at the failing input): on a filter freshly
produced by `NewInverseBloomFilter 4`, the very first `Observe` call with the
empty key returns `true`, although the empty key was never observed — a false
positive.  The slot's nil pointer and the empty key are both length-0 byte
slices, which Go's `bytes.Equal` treats as equal, contradicting the claim
(and the function's own documentation) that `Observe` never returns `true`
for a never-observed key. -/
theorem observe_first_call_empty_key_true :
    (NewInverseBloomFilter 4).map (fun f => (Observe f []).1) = .ok true := rfl

/-- C2 (code bug, evaluated at the failing input): on a fresh one-slot
filter the target slot is empty (`isNone`), yet `Observe` of the empty key
returns `true`, contradicting the claim that `Observe` returns `false`
whenever the slot was empty: the code compares `bytes.Equal(oldId, key)`
without requiring the prior content to be non-empty. -/
theorem observe_empty_slot_empty_key_true :
    (NewInverseBloomFilter 1).map
      (fun f => ((f.array.getD 0 none).isNone, (Observe f []).1)) = .ok (true, true) := rfl

/-- C6 (code bug, evaluated at the failing input): observing the empty key
twice on a fresh filter returns `(true, true)`, not the claimed
`(false, true)` — the first call is already a false positive. -/
theorem observe_empty_key_twice_true_true :
    (NewInverseBloomFilter 2).map (fun f =>
      let r1 := Observe f []
      let r2 := Observe r1.2 []
      (r1.1, r2.1)) = .ok (true, true) := rfl

/-- C7 (code bug, evaluated at the failing input): on a fresh one-slot
filter the distinct keys `[]` and `[0]` both map to slot index `0`, yet the
sequence `Observe []`, `Observe [0]`, `Observe []` returns
`(true, false, false)`, not the claimed `(false, false, false)`: the first
call is a false positive for the never-observed empty key. -/
theorem observe_eviction_empty_key_first_true :
    (NewInverseBloomFilter 1).map (fun f =>
      let r1 := Observe f []
      let r2 := Observe r1.2 [0]
      let r3 := Observe r2.2 []
      (observeIndex f [], observeIndex f [0], r1.1, r2.1, r3.1))
      = .ok (0, 0, true, false, false) := rfl

/-- C3: on a filter whose private hasher is in its reset state, the slot
index `Observe` uses equals the spec's index function of the key — the
three-byte fold of the 32-bit FNV-1a digest masked with `indexMask` — and
lies in `[0, N)` for a well-formed filter. -/
theorem Observe_index_matches_spec (f : InverseBloomFilter) (key : Key)
    (hh : f.hstate = fnvOffsetBasis) (hwf : WellFormed f) :
    observeIndex f key = specIndexOfKey key f.sizeMask ∧
      observeIndex f key < f.array.length :=
  ⟨observeIndex_eq_spec f key hh, observeIndex_lt_length f key hwf⟩

/-- Witness for C3 at the concrete filter `sampleFilter` and key
`[104, 105]`. -/
theorem Observe_index_matches_spec_witness :
    observeIndex sampleFilter [104, 105] = specIndexOfKey [104, 105] sampleFilter.sizeMask ∧
      observeIndex sampleFilter [104, 105] < sampleFilter.array.length :=
  Observe_index_matches_spec sampleFilter [104, 105] rfl (by unfold WellFormed; rfl)

/-- C4: `NewInverseBloomFilter size` fails with `ErrSizeTooSmall` exactly
when `size ≤ 0`, fails with `ErrSizeTooLarge` exactly when
`size > MaxSize`, succeeds exactly on `0 < size ≤ MaxSize` (so in
particular on `size = MaxSize`), and the two error values are distinct. -/
theorem NewInverseBloomFilter_error_contract (size : Int) :
    (NewInverseBloomFilter size = .error .ErrSizeTooSmall ↔ size ≤ 0) ∧
    (NewInverseBloomFilter size = .error .ErrSizeTooLarge ↔ MaxSize < size) ∧
    ((0 < size ∧ size ≤ MaxSize) ↔ ∃ f, NewInverseBloomFilter size = .ok f) ∧
    FilterError.ErrSizeTooSmall ≠ FilterError.ErrSizeTooLarge := by
  have hM : MaxSize = 1073741824 := by norm_num [MaxSize]
  by_cases h1 : MaxSize < size <;> by_cases h2 : size ≤ 0 <;>
    simp [NewInverseBloomFilter, h1, h2] <;> omega

/-- `roundUpPow2` on `1 ≤ n ≤ 2 ^ 30` is a power of two in `[n, 2 * n)`. -/
theorem roundUpPow2_spec (n : Nat) (h1 : 1 ≤ n) (h2 : n ≤ 2 ^ 30) :
    (∃ k, roundUpPow2 n = 2 ^ k) ∧ n ≤ roundUpPow2 n ∧ roundUpPow2 n < 2 * n :=
  roundUpPow2Aux_spec n 30 h1 h2

/-- C5: for `0 < size ≤ MaxSize`, the constructed filter's `Size` is a
power of two, at least `size`, below `2 * size` (hence the smallest power of
two `≥ size`), equals `size` whenever `size` is itself a power of two, and
every slot starts empty. -/
theorem NewInverseBloomFilter_size_rounding (size : Int) (f : InverseBloomFilter)
    (h1 : 0 < size) (h2 : size ≤ MaxSize)
    (hf : NewInverseBloomFilter size = .ok f) :
    (∃ k, Size f = 2 ^ k) ∧ size ≤ (Size f : Int) ∧ (Size f : Int) < 2 * size ∧
      (∀ k : Nat, size = 2 ^ k → (Size f : Int) = size) ∧
      f.array = List.replicate (Size f) none := by
  have hM : MaxSize = 1073741824 := by norm_num [MaxSize]
  have hnotlt : ¬ MaxSize < size := not_lt.mpr h2
  have hnotle : ¬ size ≤ 0 := not_le.mpr h1
  unfold NewInverseBloomFilter at hf
  rw [if_neg hnotlt, if_neg hnotle] at hf
  simp only [Except.ok.injEq] at hf
  subst hf
  have hn1 : 1 ≤ size.toNat := by omega
  have hn2 : size.toNat ≤ 2 ^ 30 := by
    have h30 : (2 : Nat) ^ 30 = 1073741824 := by norm_num
    omega
  obtain ⟨hpow, hge, hlt⟩ := roundUpPow2_spec size.toNat hn1 hn2
  simp only [Size, List.length_replicate]
  refine ⟨hpow, by omega, by omega, ?_, trivial⟩
  intro k hk
  have hcast : ((2 ^ k : Nat) : Int) = size := by push_cast; omega
  have hnk : size.toNat = 2 ^ k := by omega
  have hres : roundUpPow2 size.toNat = size.toNat := by
    rw [hnk] at hpow hge hlt ⊢
    exact pow_two_between (2 ^ k) (roundUpPow2 (2 ^ k)) k rfl hpow hge hlt
  omega

/-- Witness for C5 at `size = 10`: the filter is `sampleFilter`, whose
`Size` is 16 — the spec's own example. -/
theorem NewInverseBloomFilter_size_rounding_witness :
    (∃ k, Size sampleFilter = 2 ^ k) ∧ (10 : Int) ≤ (Size sampleFilter : Int) ∧
      (Size sampleFilter : Int) < 2 * 10 ∧
      sampleFilter.array = List.replicate (Size sampleFilter) none :=
  ⟨(NewInverseBloomFilter_size_rounding 10 sampleFilter (by norm_num)
      (by norm_num [MaxSize]) rfl).1,
   (NewInverseBloomFilter_size_rounding 10 sampleFilter (by norm_num)
      (by norm_num [MaxSize]) rfl).2.1,
   (NewInverseBloomFilter_size_rounding 10 sampleFilter (by norm_num)
      (by norm_num [MaxSize]) rfl).2.2.1,
   (NewInverseBloomFilter_size_rounding 10 sampleFilter (by norm_num)
      (by norm_num [MaxSize]) rfl).2.2.2.2⟩

/-- C8: the slot index is a pure function of the key alone — two filters
with equal masks and reset hashers compute the same index for a key, the
private hash accumulator is reset to its initial state by every `Observe`
call, and a subsequent `Observe` on the updated filter computes the same
index for the key as the original filter. -/
theorem observeIndex_deterministic (f g : InverseBloomFilter) (key k : Key)
    (hf : f.hstate = fnvOffsetBasis) (hg : g.hstate = fnvOffsetBasis)
    (hm : f.sizeMask = g.sizeMask) :
    observeIndex f key = observeIndex g key ∧
      (Observe f k).2.hstate = fnvOffsetBasis ∧
      observeIndex (Observe f k).2 key = observeIndex f key := by
  refine ⟨?_, rfl, ?_⟩
  · unfold observeIndex
    rw [hf, hg, hm]
  · show uintHashSum32 (hashWrite fnvOffsetBasis key) &&& f.sizeMask = observeIndex f key
    unfold observeIndex
    rw [hf]

/-- Witness for C8 at `sampleFilter` and keys `[1, 2]` and `[3]`. -/
theorem observeIndex_deterministic_witness :
    observeIndex sampleFilter [1, 2] = observeIndex sampleFilter [1, 2] ∧
      (Observe sampleFilter [3]).2.hstate = fnvOffsetBasis ∧
      observeIndex (Observe sampleFilter [3]).2 [1, 2] = observeIndex sampleFilter [1, 2] :=
  observeIndex_deterministic sampleFilter sampleFilter [1, 2] [3] rfl rfl rfl

/-- C10: `Observe` mutates at most the slot at the computed index — on a
well-formed filter the index is in bounds, the mask, table length and `Size`
are unchanged, and every other slot keeps its content. -/
theorem Observe_frame (f : InverseBloomFilter) (key : Key) (hwf : WellFormed f) :
    observeIndex f key < f.array.length ∧
      (Observe f key).2.sizeMask = f.sizeMask ∧
      (Observe f key).2.array.length = f.array.length ∧
      Size (Observe f key).2 = Size f ∧
      ∀ j, j ≠ observeIndex f key →
        (Observe f key).2.array.getD j none = f.array.getD j none := by
  refine ⟨observeIndex_lt_length f key hwf, rfl, ?_, ?_, ?_⟩
  · show (f.array.set (observeIndex f key) (some key)).length = f.array.length
    exact List.length_set f.array _ _
  · show (f.array.set (observeIndex f key) (some key)).length = f.array.length
    exact List.length_set f.array _ _
  · intro j hj
    show (f.array.set (observeIndex f key) (some key)).getD j none = f.array.getD j none
    rw [List.getD_eq_getElem?_getD, List.getD_eq_getElem?_getD,
      List.getElem?_set_ne (Ne.symm hj)]

/-- Witness for C10 at `sampleFilter` and key `[42]` (whose index is 15),
instantiating the frame clause at slot 0. -/
theorem Observe_frame_witness :
    (Observe sampleFilter [42]).2.array.length = sampleFilter.array.length ∧
      Size (Observe sampleFilter [42]).2 = Size sampleFilter ∧
      (Observe sampleFilter [42]).2.array.getD 0 none = sampleFilter.array.getD 0 none :=
  ⟨(Observe_frame sampleFilter [42] (by unfold WellFormed; rfl)).2.2.1,
   (Observe_frame sampleFilter [42] (by unfold WellFormed; rfl)).2.2.2.1,
   (Observe_frame sampleFilter [42] (by unfold WellFormed; rfl)).2.2.2.2 0 (by decide)⟩
